import Mathlib

/-!
Verification of the telephony audio pipeline and the duplex streaming bridge
of the voice-ai-system repository, as a shallow embedding in Lean.

Modelling conventions:
* PCM16 sample values are integers; raw buffer bytes are naturals.
* JavaScript number arithmetic is modelled exactly over the rationals.
* JavaScript bitwise operators act on 32-bit integers and mask shift counts
  to five bits; where that matters (the mu-law mantissa shift) it is modelled
  explicitly.
* Buffers are lists; an Int16Array view over a byte buffer pairs bytes
  little-endian and ignores a trailing odd byte.
* Event-callback control flow (the Twilio/OpenAI bridge) is modelled as a
  state machine: a step function from state and inbound event to new state
  plus the list of messages emitted toward the two sockets, folded over an
  event list.
-/

namespace VoiceAi

/-! ## G.711 mu-law codec (src/audio/g711.js) -/

/-- The clamp helper of g711.js: Math.min(Math.max(val, lo), hi). -/
def jsClamp (val lo hi : ℤ) : ℤ := min (max val lo) hi

/-- JS (~x & 0xff) on a byte value: bitwise complement within one byte. -/
def jsNotByte (x : ℕ) : ℕ := 255 - x % 256

/-- Decode one mu-law byte to a linear PCM16 sample: the loop body of
decodeMuLaw (g711.js lines 12-21). -/
def decodeMuLawByte (b : ℕ) : ℤ :=
  let mu := jsNotByte b
  let sign := mu &&& 0x80
  let exponent := (mu >>> 4) &&& 0x07
  let mantissa := mu &&& 0x0f
  let sample : ℤ := ((((mantissa <<< 3) + 0x84) <<< exponent : ℕ) : ℤ) - 0x84
  if sign ≠ 0 then -sample else sample

/-- decodeMuLaw (g711.js lines 9-23): one PCM16 sample per input byte. -/
def decodeMuLaw (mu : List ℕ) : List ℤ := mu.map decodeMuLawByte

/-- The exponent search loop of linearToMuLawSample (g711.js lines 35-38):
starting at exponent 7 with mask 0x4000, decrement while the masked bit of
the biased magnitude is clear; for exponent e greater than 0 the mask is
2 ^ (7 + e). -/
def muExponentLoop : ℕ → ℕ → ℕ
  | 0, _ => 0
  | e + 1, clamped =>
      if clamped &&& 2 ^ (8 + e) = 0 then muExponentLoop e clamped
      else e + 1

/-- The JS shift count in (clamped >> (exponent === 0 ? 0 : exponent - 3))
(g711.js line 40): the JS right-shift operator masks its count to five bits,
so exponents 1 and 2 produce counts 30 and 31, not negative shifts. -/
def muMantissaShift (e : ℕ) : ℕ :=
  if e = 0 then 0 else (((e : ℤ) - 3) % 32).toNat

/-- linearToMuLawSample (g711.js lines 25-43). -/
def linearToMuLawSample (sample : ℤ) : ℕ :=
  let biased : ℤ := jsClamp sample (-32635) 32635
  let sign : ℕ := if biased < 0 then 0x80 else 0x00
  let clamped : ℕ := ((if biased < 0 then -biased else biased) + 0x84).toNat
  let exponent := muExponentLoop 7 clamped
  let mantissa := (clamped >>> muMantissaShift exponent) &&& 0x0f
  jsNotByte (sign ||| (exponent <<< 4) ||| mantissa)

/-- encodeMuLaw (g711.js lines 46-58) on the sample view: one companded byte
per 16-bit input sample. -/
def encodeMuLaw (pcm : List ℤ) : List ℕ := pcm.map linearToMuLawSample

/-- Combine two bytes little-endian into one signed 16-bit value: one element
of an Int16Array view over a byte buffer. -/
def int16OfBytes (lo hi : ℕ) : ℤ :=
  let v := lo % 256 + 256 * (hi % 256)
  if v < 32768 then (v : ℤ) else (v : ℤ) - 65536

/-- The Int16Array view over a byte buffer with element count equal to the
byte length divided by two, rounded down: toInt16View (resample.js lines
227-250) and the view taken inside encodeMuLaw (g711.js lines 48-49). A
trailing odd byte is ignored. -/
def pcm16BytesToSamples : List ℕ → List ℤ
  | lo :: hi :: rest => int16OfBytes lo hi :: pcm16BytesToSamples rest
  | _ => []

/-- encodeMuLaw applied to a raw byte buffer, as the source does: view
floor(length / 2) samples, then compand each (g711.js lines 46-58). -/
def encodeMuLawBytes (bytes : List ℕ) : List ℕ :=
  encodeMuLaw (pcm16BytesToSamples bytes)

/-! ## Framer (src/audio/mulaw.js) -/

/-- TWILIO_FRAME_BYTES (mulaw.js lines 73-74): 160 bytes, 20 ms at 8 kHz,
one byte per mu-law sample. -/
def TWILIO_FRAME_BYTES : ℕ := 160

/-- chunkMulawFrames (mulaw.js lines 84-90): collect frames of frameSize
bytes from offset 0 while a whole frame remains; a trailing short remainder
is never emitted. The positivity guard on frameSize reflects that the JS
loop only terminates for a positive frame size; every caller uses 160. -/
def chunkMulawFrames (mu : List ℕ) (frameSize : ℕ) : List (List ℕ) :=
  if _h : 0 < frameSize ∧ frameSize ≤ mu.length then
    mu.take frameSize :: chunkMulawFrames (mu.drop frameSize) frameSize
  else []
termination_by mu.length
decreasing_by
  simp only [List.length_drop]
  omega

/-- The summed per-sample absolute error between two PCM16 buffers, compared
pairwise; the average error of the mulaw roundtrip test (tests/audio.test.js
lines 33-38) is this sum divided by the sample count. -/
def sumAbsError (a b : List ℤ) : ℤ := ((a.zip b).map fun p => |p.1 - p.2|).sum

/-- Claim C3: the spec asserts that for any PCM16 buffer the mu-law round
trip decode(encode(x)) has average per-sample absolute error below 2000.
The code violates this: the mantissa extraction in linearToMuLawSample
shifts by (exponent - 3) instead of the companding standard (exponent + 3),
so for the one-sample buffer [32395] the round trip returns 16764 and the
average absolute error is 15631, far above 2000. This theorem evaluates the
embedded code at that failing input. -/
theorem mulaw_roundtrip_error_exceeds_bound :
    decodeMuLaw (encodeMuLaw [32395]) = [16764]
    ∧ sumAbsError [32395] (decodeMuLaw (encodeMuLaw [32395])) = 15631
    ∧ ¬ (sumAbsError [32395] (decodeMuLaw (encodeMuLaw [32395]))
          < 2000 * (([32395] : List ℤ).length : ℤ)) := by
  decide

theorem chunkMulawFrames_map_length (f : ℕ) (hf : 0 < f) :
    ∀ n (mu : List ℕ), mu.length ≤ n →
      (chunkMulawFrames mu f).map List.length = List.replicate (mu.length / f) f := by
  intro n
  induction n with
  | zero =>
      intro mu hmu
      have h0 : mu.length = 0 := Nat.le_zero.mp hmu
      rw [chunkMulawFrames, dif_neg (by omega)]
      simp [Nat.div_eq_of_lt, h0]
  | succ n ih =>
      intro mu hmu
      rw [chunkMulawFrames]
      by_cases hc : 0 < f ∧ f ≤ mu.length
      · rw [dif_pos hc]
        simp only [List.map_cons]
        rw [ih (mu.drop f) (by simp only [List.length_drop]; omega)]
        rw [List.length_take, List.length_drop, min_eq_left hc.2,
          Nat.div_eq_sub_div hf hc.2, List.replicate_succ]
      · rw [dif_neg hc]
        have hlt : mu.length < f := by omega
        rw [Nat.div_eq_of_lt hlt]
        simp

/-- Claim C6: chunkMulawFrames splits a companded buffer into fixed-size
frames and drops any trailing short remainder: every buffer of N bytes
yields floor(N / 160) frames of exactly 160 bytes; in particular 480 bytes
give 3 frames of 160 bytes and 500 bytes give 3 frames (20 bytes dropped,
not padded). -/
theorem chunk_framer_exact :
    (∀ mu : List ℕ,
        (chunkMulawFrames mu TWILIO_FRAME_BYTES).map List.length
          = List.replicate (mu.length / 160) 160)
    ∧ (chunkMulawFrames (List.replicate 480 0) 160).map List.length
        = List.replicate 3 160
    ∧ (chunkMulawFrames (List.replicate 500 0) 160).map List.length
        = List.replicate 3 160 := by
  refine ⟨fun mu => chunkMulawFrames_map_length 160 (by norm_num) mu.length mu le_rfl,
    ?_, ?_⟩
  · rw [chunkMulawFrames_map_length 160 (by norm_num) _ _ le_rfl]
    norm_num
  · rw [chunkMulawFrames_map_length 160 (by norm_num) _ _ le_rfl]
    norm_num

/-! ## Resampler (src/audio/resample.js) -/

/-- JS Math.round: round half toward positive infinity. -/
def jsRound (q : ℚ) : ℤ := ⌊q + 1 / 2⌋

/-- resamplePcm16Linear (resample.js lines 253-276) on the sample view.
An empty buffer returns empty; a missing or zero rate, and equal rates,
return the input unchanged (the source returns a byte copy); otherwise the
output has max(1, round(len * toRate / fromRate)) samples, each linearly
interpolated between the two bracketing inputs (the upper index clamped at
the end of the buffer, out-of-range reads giving 0) and rounded. -/
def resamplePcm16Linear (samples : List ℤ) (fromRate toRate : ℕ) : List ℤ :=
  if samples.isEmpty then []
  else if fromRate = 0 ∨ toRate = 0 then samples
  else if fromRate = toRate then samples
  else
    let outSamples : ℕ :=
      max 1 (jsRound (((samples.length * toRate : ℕ) : ℚ) / (fromRate : ℚ))).toNat
    (List.range outSamples).map fun (i : ℕ) =>
      let srcPos : ℚ := (i : ℚ) * ((fromRate : ℚ) / toRate)
      let idx : ℕ := (⌊srcPos⌋).toNat
      let frac : ℚ := srcPos - idx
      let s1 : ℤ := samples.getD idx 0
      let s2 : ℤ := samples.getD (min (idx + 1) (samples.length - 1)) 0
      jsRound (s1 + (s2 - s1) * frac)

/-- resamplePcm16Sinc (resample.js lines 279-307), parameterized by the tap
weight function w k x = sinc(pi x) * Hann(k / taps), which is transcendental
in the source; the output length and structure do not depend on it.
Out-of-range taps are skipped; the accumulated sum is normalized by the sum
of the weights actually used when that sum is nonzero, and the result is
clamped to the 16-bit range. -/
def resamplePcm16SincWith (w : ℤ → ℚ → ℚ) (samples : List ℤ) (fromRate toRate : ℕ) :
    List ℤ :=
  if samples.isEmpty then []
  else if fromRate = toRate then samples
  else
    let outSamples : ℕ :=
      max 1 (⌊((samples.length * toRate : ℕ) : ℚ) / (fromRate : ℚ)⌋).toNat
    (List.range outSamples).map fun (i : ℕ) =>
      let srcPos : ℚ := (i : ℚ) / ((toRate : ℚ) / fromRate)
      let idx : ℤ := ⌊srcPos⌋
      let taps : ℤ := 16
      let contrib : List (ℚ × ℚ) := (List.range 33).map fun (kk : ℕ) =>
        let k : ℤ := (kk : ℤ) - taps
        let sIdx : ℤ := idx + k
        if sIdx < 0 ∨ (samples.length : ℤ) ≤ sIdx then (0, 0)
        else
          let wt := w k (srcPos - (sIdx : ℚ))
          (((samples.getD sIdx.toNat 0 : ℤ) : ℚ) * wt, wt)
      let acc := (contrib.map Prod.fst).sum
      let wsum := (contrib.map Prod.snd).sum
      let sample : ℚ := if wsum ≠ 0 then acc / wsum else 0
      max (-32768) (min 32767 (jsRound sample))

theorem jsRound_intCast (n : ℤ) : jsRound (n : ℚ) = n := by
  unfold jsRound
  rw [add_comm, Int.floor_add_int, Int.floor_eq_zero_iff.mpr]
  · omega
  · constructor <;> norm_num

theorem floor_round_gap (x : ℚ) (hx : 0 < x) :
    0 ≤ ⌊x⌋ ∧ 0 ≤ jsRound x ∧ ⌊x⌋ ≤ jsRound x ∧ jsRound x ≤ ⌊x⌋ + 1 := by
  unfold jsRound
  refine ⟨Int.floor_nonneg.mpr hx.le, Int.floor_nonneg.mpr (by linarith), ?_, ?_⟩
  · exact Int.floor_le_floor (by linarith)
  · calc ⌊x + 1 / 2⌋ ≤ ⌊x + (1 : ℤ)⌋ := Int.floor_le_floor (by push_cast; linarith)
      _ = ⌊x⌋ + 1 := Int.floor_add_int x 1

theorem max_one_gap (r s : ℤ) (hr : 0 ≤ r) (h1 : r ≤ s) (h2 : s ≤ r + 1) :
    |max 1 r - s| ≤ 1 := by
  rw [abs_le]
  rcases le_total r 1 with h | h
  · rw [max_eq_left h]; omega
  · rw [max_eq_right h]; omega

theorem cast_max_one_toNat (r : ℤ) (hr : 0 ≤ r) :
    ((max 1 r.toNat : ℕ) : ℤ) = max 1 r := by
  rw [Nat.cast_max, Int.toNat_of_nonneg hr]
  rfl

/-- Claim C4: for every input of L > 0 samples resampled from a positive
rate F1 to a positive rate F2, both the linear and the windowed-sinc
strategies produce round(L * F2 / F1) plus or minus one output samples:
the linear strategy rounds the target count, the sinc strategy floors it,
and both floor the count at one. -/
theorem resampler_length_law (samples : List ℤ) (f1 f2 : ℕ)
    (h0 : samples ≠ []) (h1 : 0 < f1) (h2 : 0 < f2) :
    |((resamplePcm16Linear samples f1 f2).length : ℤ)
        - jsRound (((samples.length * f2 : ℕ) : ℚ) / (f1 : ℚ))| ≤ 1
    ∧ ∀ w, |((resamplePcm16SincWith w samples f1 f2).length : ℤ)
        - jsRound (((samples.length * f2 : ℕ) : ℚ) / (f1 : ℚ))| ≤ 1 := by
  have hL : 0 < samples.length := List.length_pos.mpr h0
  have hE : samples.isEmpty = false := by
    cases samples with
    | nil => exact absurd rfl h0
    | cons a l => rfl
  have hx : 0 < ((samples.length * f2 : ℕ) : ℚ) / (f1 : ℚ) := by
    apply div_pos
    · exact_mod_cast Nat.mul_pos hL h2
    · exact_mod_cast h1
  obtain ⟨hf0, hr0, hfr, hrf⟩ := floor_round_gap _ hx
  by_cases heq : f1 = f2
  · subst heq
    have hxL : jsRound (((samples.length * f1 : ℕ) : ℚ) / (f1 : ℚ))
        = (samples.length : ℤ) := by
      have hfq : (f1 : ℚ) ≠ 0 := by exact_mod_cast h1.ne.symm
      rw [show (((samples.length * f1 : ℕ) : ℚ) / (f1 : ℚ))
            = (((samples.length : ℤ) : ℚ)) by push_cast; field_simp]
      exact jsRound_intCast _
    constructor
    · unfold resamplePcm16Linear
      rw [hE]
      simp only [Bool.false_eq_true, if_false, if_neg (by omega : ¬ (f1 = 0 ∨ f1 = 0)),
        if_pos rfl, hxL]
      simp
    · intro w
      unfold resamplePcm16SincWith
      rw [hE]
      simp only [Bool.false_eq_true, if_false, if_pos rfl, hxL]
      simp
  · constructor
    · unfold resamplePcm16Linear
      rw [hE]
      simp only [Bool.false_eq_true, if_false, if_neg (by omega : ¬ (f1 = 0 ∨ f2 = 0)),
        if_neg heq, List.length_map, List.length_range]
      rw [cast_max_one_toNat _ hr0]
      exact max_one_gap _ _ hr0 le_rfl (by omega)
    · intro w
      unfold resamplePcm16SincWith
      rw [hE]
      simp only [Bool.false_eq_true, if_false, if_neg heq, List.length_map,
        List.length_range]
      rw [cast_max_one_toNat _ hf0]
      exact max_one_gap _ _ hf0 hfr hrf

/-- Witness for claim C4 at the concrete input [1, 2, 3] resampled from
24000 Hz to 8000 Hz. -/
theorem resampler_length_law_witness :
    |((resamplePcm16Linear [1, 2, 3] 24000 8000).length : ℤ)
        - jsRound (((([1, 2, 3] : List ℤ).length * 8000 : ℕ) : ℚ) / ((24000 : ℕ) : ℚ))| ≤ 1
    ∧ ∀ w, |((resamplePcm16SincWith w [1, 2, 3] 24000 8000).length : ℤ)
        - jsRound (((([1, 2, 3] : List ℤ).length * 8000 : ℕ) : ℚ) / ((24000 : ℕ) : ℚ))| ≤ 1 :=
  resampler_length_law [1, 2, 3] 24000 8000 (by decide) (by decide) (by decide)

theorem pcm16BytesToSamples_length : ∀ bytes : List ℕ,
    (pcm16BytesToSamples bytes).length = bytes.length / 2
  | [] => by simp [pcm16BytesToSamples]
  | [_] => by simp [pcm16BytesToSamples]
  | _ :: _ :: rest => by
      simp only [pcm16BytesToSamples, List.length_cons]
      rw [pcm16BytesToSamples_length rest]
      omega

theorem pcm16BytesToSamples_take : ∀ bytes : List ℕ,
    pcm16BytesToSamples (bytes.take (2 * (bytes.length / 2))) = pcm16BytesToSamples bytes
  | [] => by simp [pcm16BytesToSamples]
  | [_] => by simp [pcm16BytesToSamples]
  | a :: b :: rest => by
      have h2 : 2 * ((a :: b :: rest).length / 2)
          = 2 * (rest.length / 2) + 1 + 1 := by
        simp only [List.length_cons]
        omega
      rw [h2, List.take_succ_cons, List.take_succ_cons]
      simp only [pcm16BytesToSamples]
      rw [pcm16BytesToSamples_take rest]

/-- Claim C8: a buffer whose byte length is not a whole number of 16-bit
samples (an odd byte length) is truncated to the largest valid whole-sample
count by the codec encoder and by the Int16Array view shared by the
resamplers, and the result is returned normally: the embedded functions are
total, so no input byte length raises an error, matching the source, whose
only length handling is the floor division in the view. -/
theorem odd_byte_length_truncates (bytes : List ℕ) (f1 f2 : ℕ) :
    (encodeMuLawBytes bytes).length = bytes.length / 2
    ∧ (pcm16BytesToSamples bytes).length = bytes.length / 2
    ∧ pcm16BytesToSamples (bytes.take (2 * (bytes.length / 2))) = pcm16BytesToSamples bytes
    ∧ resamplePcm16Linear (pcm16BytesToSamples (bytes.take (2 * (bytes.length / 2)))) f1 f2
        = resamplePcm16Linear (pcm16BytesToSamples bytes) f1 f2 := by
  refine ⟨?_, pcm16BytesToSamples_length bytes, pcm16BytesToSamples_take bytes, ?_⟩
  · unfold encodeMuLawBytes encodeMuLaw
    rw [List.length_map, pcm16BytesToSamples_length]
  · rw [pcm16BytesToSamples_take]

/-! ## Adaptive gain control (src/audio/dsp.js)

applyAgc (dsp.js lines 118-150) splits into two independent parts:
* window bookkeeping (lines 119-133): push the block's (energy, samples)
  bucket, update the running totals, then evict the oldest buckets while the
  buffered sample total exceeds the one-second window;
* the gain ramp (lines 134-149): compute a desired gain from the window RMS
  and move the applied gain toward it, in the decibel domain, by at most
  maxDeltaDb = max(0.001, chunkMs / 100 * 1) decibels.
The window fields and the ramp are embedded separately: the ramp is stated
directly in the decibel domain, where the source performs the clamping
(newDb against currentDb), because currentDb and desiredDb come through
logarithms of arbitrary positive reals; in exact real arithmetic the dB
change between the consecutive applied gains equals newDb - currentDb. -/

/-- The per-block energy of applyAgc (dsp.js lines 120-123): the sum of the
squared float samples. -/
def sumSquares (block : List ℚ) : ℚ := (block.map fun x => x * x).sum

/-- The AGC sliding-window fields of the DSP state created by initDspState
(dsp.js lines 11-13): agcEnergyQueue as a front-to-back list of buckets
carrying (energy, samples), with running totals. -/
structure AgcWindowState where
  agcEnergyQueue : List (ℚ × ℕ)
  agcEnergyTotal : ℚ
  agcSampleTotal : ℕ
deriving DecidableEq

/-- The AGC window fields of initDspState (dsp.js lines 3-15). -/
def initAgcWindowState : AgcWindowState := ⟨[], 0, 0⟩

/-- The eviction loop of applyAgc (dsp.js lines 129-133): while the buffered
sample total exceeds the window and the queue is nonempty, shift the oldest
bucket and subtract its energy and sample count from the totals. -/
def agcEvict (windowSamples : ℕ) : List (ℚ × ℕ) → ℚ → ℕ → AgcWindowState
  | [], eTotal, sTotal => ⟨[], eTotal, sTotal⟩
  | oldest :: rest, eTotal, sTotal =>
      if windowSamples < sTotal then
        agcEvict windowSamples rest (eTotal - oldest.1) (sTotal - oldest.2)
      else ⟨oldest :: rest, eTotal, sTotal⟩

/-- The window-update portion of applyAgc (dsp.js lines 119-133): an empty
block returns unchanged (the early return on line 119); otherwise the block
contributes one bucket, the totals grow accordingly, and the eviction loop
runs with windowSamples = sampleRate (the one-second window, line 128). The
gain computation (lines 134-149) reads but never writes these fields. -/
def applyAgcWindow (sampleRate : ℕ) (st : AgcWindowState) (block : List ℚ) :
    AgcWindowState :=
  if block.isEmpty then st
  else
    agcEvict sampleRate (st.agcEnergyQueue ++ [(sumSquares block, block.length)])
      (st.agcEnergyTotal + sumSquares block) (st.agcSampleTotal + block.length)

/-- A sequence of blocks processed by one conditioner state, starting from
initDspState. -/
def runAgcWindow (sampleRate : ℕ) (blocks : List (List ℚ)) : AgcWindowState :=
  blocks.foldl (applyAgcWindow sampleRate) initAgcWindowState

/-- Self-consistency of the AGC window fields: each running total equals the
sum over the queue. -/
def AgcConsistent (st : AgcWindowState) : Prop :=
  st.agcEnergyTotal = (st.agcEnergyQueue.map Prod.fst).sum
  ∧ st.agcSampleTotal = (st.agcEnergyQueue.map fun b => b.2).sum

theorem agcEvict_spec (w : ℕ) : ∀ (q : List (ℚ × ℕ)) (eT : ℚ) (sT : ℕ),
    eT = (q.map Prod.fst).sum → sT = (q.map fun b => b.2).sum →
      AgcConsistent (agcEvict w q eT sT) ∧ (agcEvict w q eT sT).agcSampleTotal ≤ w
  | [], eT, sT, he, hs => by
      refine ⟨⟨he, hs⟩, ?_⟩
      simp only [agcEvict]
      simp only [List.map_nil, List.sum_nil] at hs
      omega
  | oldest :: rest, eT, sT, he, hs => by
      simp only [List.map_cons, List.sum_cons] at he hs
      by_cases hlt : w < sT
      · simp only [agcEvict, if_pos hlt]
        exact agcEvict_spec w rest (eT - oldest.1) (sT - oldest.2)
          (by rw [he]; ring) (by omega)
      · simp only [agcEvict, if_neg hlt]
        exact ⟨⟨by simpa using he, by simpa using hs⟩, by omega⟩

theorem applyAgcWindow_spec (sr : ℕ) (st : AgcWindowState) (block : List ℚ)
    (h : AgcConsistent st ∧ st.agcSampleTotal ≤ sr) :
    AgcConsistent (applyAgcWindow sr st block)
      ∧ (applyAgcWindow sr st block).agcSampleTotal ≤ sr := by
  unfold applyAgcWindow
  by_cases hb : block.isEmpty
  · rw [if_pos hb]; exact h
  · rw [if_neg hb]
    exact agcEvict_spec sr _ _ _
      (by rw [h.1.1]; simp) (by rw [h.1.2]; simp)

theorem runAgcWindow_aux (sr : ℕ) : ∀ (blocks : List (List ℚ)) (st : AgcWindowState),
    AgcConsistent st ∧ st.agcSampleTotal ≤ sr →
      AgcConsistent (blocks.foldl (applyAgcWindow sr) st)
        ∧ (blocks.foldl (applyAgcWindow sr) st).agcSampleTotal ≤ sr
  | [], _, h => h
  | b :: bs, st, h => runAgcWindow_aux sr bs _ (applyAgcWindow_spec sr st b h)

/-- Claim C10: after every processed block, the AGC state is self-consistent
(each running total equals the sum over the queue) and the buffered sample
total never exceeds the one-second window of sampleRate samples, for every
sequence of blocks starting from initDspState. -/
theorem agc_window_state_consistent (sampleRate : ℕ) (blocks : List (List ℚ)) :
    AgcConsistent (runAgcWindow sampleRate blocks)
      ∧ (runAgcWindow sampleRate blocks).agcSampleTotal ≤ sampleRate := by
  unfold runAgcWindow
  exact runAgcWindow_aux sampleRate blocks initAgcWindowState
    ⟨⟨rfl, rfl⟩, by simp [initAgcWindowState]⟩

/-- The block duration in milliseconds: chunkMs = (chunkSamples / sampleRate)
* 1000 (dsp.js line 139). -/
def agcChunkMs (chunkSamples sampleRate : ℕ) : ℚ :=
  (chunkSamples : ℚ) / (sampleRate : ℚ) * 1000

/-- maxDeltaDb = Math.max(0.001, (chunkMs / 100) * 1) (dsp.js line 140): the
cap on the per-block gain change in decibels; note the 0.001 dB floor. -/
def agcMaxDeltaDb (chunkSamples sampleRate : ℕ) : ℚ :=
  max (1 / 1000) (agcChunkMs chunkSamples sampleRate / 100 * 1)

/-- The decibel-domain gain ramp of applyAgc (dsp.js lines 141-144): move
currentDb toward desiredDb, clamped to a step of at most maxDelta. The new
applied gain is 10 ^ (result / 20), so in exact arithmetic the decibel
change between the consecutive applied gains is result - currentDb. -/
def agcRampDb (currentDb desiredDb maxDelta : ℚ) : ℚ :=
  if currentDb + maxDelta < desiredDb then currentDb + maxDelta
  else if desiredDb < currentDb - maxDelta then currentDb - maxDelta
  else desiredDb

/-- Counterexample to claim C2 as stated: for a one-sample block at 24000 Hz
(duration 1/24 ms) with a large downward jump in desired gain, the applied
gain moves by the floor amount 0.001 dB, which exceeds the claimed cap of
1 dB per 100 ms of block duration (here 1/2400 dB). -/
theorem agc_ramp_floor_exceeds_duration_cap :
    |agcRampDb 0 (-10) (agcMaxDeltaDb 1 24000) - 0| = 1 / 1000
    ∧ ¬ (|agcRampDb 0 (-10) (agcMaxDeltaDb 1 24000) - 0|
          ≤ agcChunkMs 1 24000 / 100 * 1) := by
  have hmax : agcMaxDeltaDb 1 24000 = 1 / 1000 := by
    unfold agcMaxDeltaDb agcChunkMs
    rw [max_eq_left (by norm_num)]
  have hramp : agcRampDb 0 (-10) (agcMaxDeltaDb 1 24000) = -(1 / 1000) := by
    rw [hmax]
    unfold agcRampDb
    rw [if_neg (by norm_num), if_pos (by norm_num)]
    norm_num
  have habs : |(-(1 / 1000 : ℚ)) - 0| = 1 / 1000 := by
    rw [sub_zero, abs_neg, abs_of_pos]
    norm_num
  rw [hramp, habs]
  unfold agcChunkMs
  norm_num

/-- Claim C2, amended: across consecutive blocks the applied AGC gain never
changes by more than maxDeltaDb = max(0.001 dB, 1 dB per 100 ms of block
duration), whatever the desired gain does; and whenever the block lasts at
least 0.1 ms (so the floor is inactive) the change is bounded by the 1 dB
per 100 ms cap itself. -/
theorem agc_ramp_bounded (currentDb desiredDb : ℚ) (chunkSamples sampleRate : ℕ) :
    |agcRampDb currentDb desiredDb (agcMaxDeltaDb chunkSamples sampleRate) - currentDb|
        ≤ agcMaxDeltaDb chunkSamples sampleRate
    ∧ (1 / 10 ≤ agcChunkMs chunkSamples sampleRate →
        |agcRampDb currentDb desiredDb (agcMaxDeltaDb chunkSamples sampleRate) - currentDb|
          ≤ agcChunkMs chunkSamples sampleRate / 100 * 1) := by
  have hbound : ∀ m : ℚ, 0 ≤ m →
      |agcRampDb currentDb desiredDb m - currentDb| ≤ m := by
    intro m hm
    unfold agcRampDb
    by_cases h1 : currentDb + m < desiredDb
    · rw [if_pos h1]
      rw [abs_le]
      constructor <;> linarith
    · rw [if_neg h1]
      by_cases h2 : desiredDb < currentDb - m
      · rw [if_pos h2]
        rw [abs_le]
        constructor <;> linarith
      · rw [if_neg h2]
        rw [abs_le]
        constructor <;> linarith
  have hm0 : (0 : ℚ) ≤ agcMaxDeltaDb chunkSamples sampleRate :=
    le_trans (by norm_num) (le_max_left _ _)
  refine ⟨hbound _ hm0, fun hlong => ?_⟩
  have heq : agcMaxDeltaDb chunkSamples sampleRate
      = agcChunkMs chunkSamples sampleRate / 100 * 1 := by
    unfold agcMaxDeltaDb
    rw [max_eq_right (by linarith)]
  rw [← heq]
  exact hbound _ hm0

/-- Witness for claim C2 at a concrete input: a 2400-sample block at
24000 Hz lasts 100 ms, so the applied gain change is bounded by 1 dB. -/
theorem agc_ramp_bounded_witness :
    |agcRampDb 0 (-10) (agcMaxDeltaDb 2400 24000) - 0|
        ≤ agcMaxDeltaDb 2400 24000
    ∧ |agcRampDb 0 (-10) (agcMaxDeltaDb 2400 24000) - 0|
        ≤ agcChunkMs 2400 24000 / 100 * 1 :=
  ⟨(agc_ramp_bounded 0 (-10) 2400 24000).1,
    (agc_ramp_bounded 0 (-10) 2400 24000).2 (by unfold agcChunkMs; norm_num)⟩

/-! ## Duplex bridge barge-in machine (src/realtimeHandler.js)

The per-call closure variables of the connection handler (lines 538-553)
and the OpenAI-event dispatch (handleOpenAiMessage, lines 875-967) are
modelled as a state machine over the engine events relevant to the audio
path. Response ids are naturals; an audio delta is identified by a natural
tag standing for its base64 payload. -/

/-- Engine events handled on the audio path by handleOpenAiMessage. -/
inductive EngineEvent where
  | speechStarted
  | responseCreated (id : Option ℕ)
  | audioDelta (chunk : ℕ)
  | responseDone
deriving DecidableEq

/-- Messages the bridge emits toward the two sockets on this path: the clear
event to Twilio (sendClearToTwilio, lines 607-622), the response.cancel to
OpenAI tagged with the active response id (cancelActiveResponse, lines
590-605), and outbound media to Twilio (forwardAudioToTwilio, lines
633-647). -/
inductive BridgeAction where
  | clearTwilio
  | cancelResponse (id : ℕ)
  | mediaToTwilio (chunk : ℕ)
deriving DecidableEq

/-- The per-call mutable flags consulted on the audio path (lines 538-541),
together with the readyState checks the send helpers perform on the two
sockets. -/
structure BridgeState where
  streamSid : Option ℕ
  activeResponse : Bool
  currentResponseId : Option ℕ
  userSpeaking : Bool
  twilioOpen : Bool
  openaiOpen : Bool
deriving DecidableEq

/-- cancelActiveResponse (lines 590-605): requires an active response, a
known response id, and an open OpenAI socket; sends response.cancel tagged
with the current response id. -/
def cancelActiveResponse (st : BridgeState) : List BridgeAction :=
  if st.activeResponse then
    match st.currentResponseId with
    | some rid => if st.openaiOpen then [BridgeAction.cancelResponse rid] else []
    | none => []
  else []

/-- sendClearToTwilio (lines 607-622): requires a known streamSid and an
open Twilio socket. -/
def sendClearToTwilio (st : BridgeState) : List BridgeAction :=
  if st.streamSid.isSome ∧ st.twilioOpen then [BridgeAction.clearTwilio] else []

/-- handleSpeechStarted (lines 624-631): set userSpeaking, then clear the
Twilio buffer, then cancel the active response. -/
def handleSpeechStarted (st : BridgeState) : BridgeState × List BridgeAction :=
  let st1 := { st with userSpeaking := true }
  (st1, sendClearToTwilio st1 ++ cancelActiveResponse st1)

/-- forwardAudioToTwilio (lines 633-647): dropped unless a streamSid is
known, the caller is not speaking, and a response is active; sent only on
an open socket. -/
def forwardAudioToTwilio (st : BridgeState) (chunk : ℕ) : List BridgeAction :=
  if st.streamSid.isNone ∨ st.userSpeaking ∨ st.activeResponse = false then []
  else if st.twilioOpen then [BridgeAction.mediaToTwilio chunk] else []

/-- One dispatch of handleOpenAiMessage (lines 880-932) for the audio-path
events: response.created records the new id (keeping the old one when the
message carries none), marks the response active and clears userSpeaking;
response.done and its variants clear activeResponse. -/
def bridgeStep (st : BridgeState) : EngineEvent → BridgeState × List BridgeAction
  | EngineEvent.speechStarted => handleSpeechStarted st
  | EngineEvent.responseCreated id =>
      ({ st with
          currentResponseId := id.orElse fun _ => st.currentResponseId,
          activeResponse := true,
          userSpeaking := false }, [])
  | EngineEvent.audioDelta c => (st, forwardAudioToTwilio st c)
  | EngineEvent.responseDone => ({ st with activeResponse := false }, [])

/-- Run the bridge over a list of engine events, concatenating the emitted
messages in order. -/
def bridgeRun (st : BridgeState) : List EngineEvent → BridgeState × List BridgeAction
  | [] => (st, [])
  | e :: es =>
      let step := bridgeStep st e
      let rest := bridgeRun step.1 es
      (rest.1, step.2 ++ rest.2)

/-- The event sequence of the barge-in ordering property. -/
def bargeInScenario : List EngineEvent :=
  [EngineEvent.responseCreated (some 1), EngineEvent.audioDelta 10,
    EngineEvent.speechStarted, EngineEvent.responseCreated (some 2),
    EngineEvent.audioDelta 20]

/-- Counterexample to claim C1 as stated: in the Active state (streamSid
known, both sockets open), the first audio delta of the scenario arrives
after response.created(1) and before speech.started, and the bridge
forwards it to Twilio rather than dropping it: the full emitted trace is
[media(10), clear, cancel(1), media(20)], so media for the first delta is
present. -/
theorem barge_in_first_delta_forwarded :
    (bridgeRun ⟨some 5, false, none, false, true, true⟩ bargeInScenario).2
      = [BridgeAction.mediaToTwilio 10, BridgeAction.clearTwilio,
          BridgeAction.cancelResponse 1, BridgeAction.mediaToTwilio 20]
    ∧ BridgeAction.mediaToTwilio 10
        ∈ (bridgeRun ⟨some 5, false, none, false, true, true⟩ bargeInScenario).2 := by
  decide

/-- Claim C1, amended: from any Active state (streamSid known, both sockets
open, arbitrary response flags), the scenario emits exactly the trace
[media(first delta), clear, cancel(1), media(second delta)]: exactly one
clear and one cancellation tagged with response id 1, both after
speech.started; the first audio delta (which precedes speech.started) is
forwarded, not dropped; the second is forwarded after response id 2 is
created; any delta arriving between speech.started and response.created(2)
would be dropped, as userSpeaking suppresses forwarding there. -/
theorem barge_in_ordering (sid : ℕ) (active0 : Bool) (id0 : Option ℕ)
    (speaking0 : Bool) :
    (bridgeRun ⟨some sid, active0, id0, speaking0, true, true⟩ bargeInScenario).2
      = [BridgeAction.mediaToTwilio 10, BridgeAction.clearTwilio,
          BridgeAction.cancelResponse 1, BridgeAction.mediaToTwilio 20]
    ∧ (bridgeRun ⟨some sid, active0, id0, speaking0, true, true⟩
        [EngineEvent.responseCreated (some 1), EngineEvent.speechStarted,
          EngineEvent.audioDelta 10]).2
      = [BridgeAction.clearTwilio, BridgeAction.cancelResponse 1] := by
  constructor <;> rfl

/-! ## Tool-call argument assembly (src/realtimeHandler.js)

The function-call accumulator closure variables (lines 542-544), the
appendFunctionCallChunk helper (lines 575-588) and handleFunctionCallDone
(lines 771-804) are modelled as a machine over the two function-call
events dispatched by handleOpenAiMessage (lines 910-915). JS falsiness of
an absent or empty string field is modelled by the empty string; message
ids are naturals wrapped in Option. -/

/-- The fields of a function-call event message that the accumulator reads:
name, call_id, id, delta.arguments and arguments (absent modelled as empty
string or none). -/
structure FnMessage where
  name : String
  callId : Option ℕ
  msgId : Option ℕ
  deltaArguments : String
  arguments : String
deriving DecidableEq

/-- The two function-call events: response.function_call_arguments.delta and
response.function_call_arguments.done. -/
inductive FnEvent where
  | argsDelta (m : FnMessage)
  | argsDone (m : FnMessage)
deriving DecidableEq

/-- The accumulator closure variables functionCallBuffer, functionCallName,
functionCallId (lines 542-544). -/
structure FnCallState where
  functionCallBuffer : String
  functionCallName : String
  functionCallId : Option ℕ
deriving DecidableEq

/-- resetFunctionCallState (lines 569-573). -/
def resetFunctionCallState : FnCallState := ⟨"", "", none⟩

/-- appendFunctionCallChunk (lines 575-588): take the message's name and
call id when present (falling back to message.id, then to the stored one),
append delta.arguments when present, otherwise adopt message.arguments when
the buffer is still empty. -/
def appendFunctionCallChunk (st : FnCallState) (m : FnMessage) : FnCallState :=
  let name := if m.name ≠ "" then m.name else st.functionCallName
  let cid := (m.callId.orElse fun _ => m.msgId).orElse fun _ => st.functionCallId
  if m.deltaArguments ≠ "" then
    ⟨st.functionCallBuffer ++ m.deltaArguments, name, cid⟩
  else if st.functionCallBuffer = "" ∧ m.arguments ≠ "" then
    ⟨m.arguments, name, cid⟩
  else
    ⟨st.functionCallBuffer, name, cid⟩

/-- The observable JSON.parse of the accumulated buffer performed inside
handleFunctionCallDone (line 778), tagged with the function name and the
call id held in state at that moment. -/
structure ParseAct where
  name : String
  buffer : String
  callId : Option ℕ
deriving DecidableEq

/-- handleFunctionCallDone (lines 771-804): with no recorded name or an
empty buffer, reset without parsing; otherwise parse the whole accumulated
buffer and reset. -/
def handleFunctionCallDone (st : FnCallState) : FnCallState × List ParseAct :=
  if st.functionCallName = "" ∨ st.functionCallBuffer = "" then
    (resetFunctionCallState, [])
  else
    (resetFunctionCallState,
      [⟨st.functionCallName, st.functionCallBuffer, st.functionCallId⟩])

/-- The dispatch of handleOpenAiMessage for the two function-call events
(lines 910-915): a delta only accumulates; a done accumulates the final
message and then finalizes. -/
def fnStep (st : FnCallState) : FnEvent → FnCallState × List ParseAct
  | FnEvent.argsDelta m => (appendFunctionCallChunk st m, [])
  | FnEvent.argsDone m => handleFunctionCallDone (appendFunctionCallChunk st m)

/-- Run the accumulator machine over an event list, concatenating the parse
acts in order. -/
def fnRun (st : FnCallState) : List FnEvent → FnCallState × List ParseAct
  | [] => (st, [])
  | e :: es =>
      let step := fnStep st e
      let rest := fnRun step.1 es
      (rest.1, step.2 ++ rest.2)

/-- Modelled from the spec: "the bridge accumulates them keyed by call-id,
and only parses/acts once a completion signal names that call-id". The
accumulator is a map from call id to its own buffered fragments; a done
event finalizes exactly the buffer keyed by the call id it names, and a
fragment of one call id is never parsed by a completion naming another. -/
def specFnKey (m : FnMessage) : Option ℕ := m.callId.orElse fun _ => m.msgId

/-- Modelled from the spec: the fragment a message contributes, preferring
the streamed delta and falling back to full arguments. -/
def specFnFragment (m : FnMessage) : String :=
  if m.deltaArguments ≠ "" then m.deltaArguments else m.arguments

/-- Modelled from the spec: one step of the keyed accumulator; the map is a
total function from call id to buffered text, empty by default. -/
def specFnStep (bufs : ℕ → String) : FnEvent → (ℕ → String) × List ParseAct
  | FnEvent.argsDelta m =>
      match specFnKey m with
      | some k => (fun j => if j = k then bufs j ++ specFnFragment m else bufs j, [])
      | none => (bufs, [])
  | FnEvent.argsDone m =>
      match specFnKey m with
      | some k =>
          let content := bufs k ++ specFnFragment m
          (fun j => if j = k then "" else bufs j,
            if m.name ≠ "" ∧ content ≠ "" then [⟨m.name, content, some k⟩] else [])
      | none => (bufs, [])

/-- Modelled from the spec: run the keyed accumulator over an event list. -/
def specFnRun (bufs : ℕ → String) : List FnEvent → (ℕ → String) × List ParseAct
  | [] => (bufs, [])
  | e :: es =>
      let step := specFnStep bufs e
      let rest := specFnRun step.1 es
      (rest.1, step.2 ++ rest.2)

/-- The concrete two-call-id trace refuting the keying: a fragment streams
in under call id 7, then a completion arrives naming call id 9. -/
def crossIdTrace : List FnEvent :=
  [FnEvent.argsDelta ⟨"capture_message", some 7, none, "argA", ""⟩,
    FnEvent.argsDone ⟨"", some 9, none, "", ""⟩]

/-- Counterexample to claim C5 as stated: the code keeps one accumulator,
not a map keyed by call-id, so on crossIdTrace it parses the fragment
"argA" - accumulated under call id 7 - upon the completion naming call
id 9, while the keyed accumulator demanded by the spec parses nothing on
this trace (the buffer for call id 9 is empty and no completion ever names
call id 7). -/
theorem fn_call_cross_id_parsed :
    (fnRun resetFunctionCallState crossIdTrace).2
      = [⟨"capture_message", "argA", some 9⟩]
    ∧ (specFnRun (fun _ => "") crossIdTrace).2 = [] := by
  constructor <;> rfl

/-- Recognizer for delta events. -/
def FnEvent.isDelta : FnEvent → Bool
  | FnEvent.argsDelta _ => true
  | FnEvent.argsDone _ => false

theorem fnRun_deltas_aux : ∀ (events : List FnEvent) (st : FnCallState),
    events.all FnEvent.isDelta = true → (fnRun st events).2 = []
  | [], _, _ => rfl
  | e :: es, st, h => by
      simp only [List.all_cons, Bool.and_eq_true] at h
      cases e with
      | argsDelta m =>
          simp only [fnRun, fnStep, List.nil_append]
          exact fnRun_deltas_aux es _ h.2
      | argsDone m => exact absurd h.1 (by simp [FnEvent.isDelta])

/-- Claim C5, amended: argument fragments are accumulated in one buffer per
connection (with the most recently seen call id retained, not a map keyed
by call-id), and the accumulated text is parsed only when a completion
event arrives: a sequence containing only delta events never emits a parse,
whatever the starting state. -/
theorem fn_parse_only_on_done (st : FnCallState) (events : List FnEvent)
    (h : events.all FnEvent.isDelta = true) :
    (fnRun st events).2 = [] :=
  fnRun_deltas_aux events st h

/-- Witness for claim C5 at a concrete input: two streamed fragments with no
completion emit no parse. -/
theorem fn_parse_only_on_done_witness :
    (fnRun resetFunctionCallState
      [FnEvent.argsDelta ⟨"capture_message", some 7, none, "argA", ""⟩,
        FnEvent.argsDelta ⟨"", some 7, none, "argB", ""⟩]).2 = [] :=
  fn_parse_only_on_done resetFunctionCallState _ (by decide)

/-! ## External-resampler availability probes

Two distinct probes spawn "ffmpeg -version" to decide availability:
* hasFfmpegSync (resample.js lines 309-318) consults the module-level
  ffmpegChecked/ffmpegUsable cache, probing only on the first call;
* ffmpegAvailable (telephonyAudio.js lines 17-30) spawns a probe on every
  call, with no cache; resampleTo8k and decodeToPcm16 invoke it per block.
Each call is modelled with the availability answer the host would give as
an oracle value. -/

/-- Which probe entry point a call goes through. -/
inductive ProbeOp where
  | syncCheck
  | asyncCheck
deriving DecidableEq

/-- The module-level cache of resample.js (lines 309-310). -/
structure FfmpegCache where
  ffmpegChecked : Bool
  ffmpegUsable : Bool
deriving DecidableEq

/-- Initial module state: ffmpegChecked = false, ffmpegUsable = false. -/
def initFfmpegCache : FfmpegCache := ⟨false, false⟩

/-- One probe call: the returned triple is (new cache, number of spawned
"ffmpeg -version" processes, returned availability). hasFfmpegSync returns
the cached value without probing once checked; ffmpegAvailable always
spawns and never touches the cache. -/
def probeStep (st : FfmpegCache) : ProbeOp → Bool → FfmpegCache × ℕ × Bool
  | ProbeOp.syncCheck, oracle =>
      if st.ffmpegChecked then (st, 0, st.ffmpegUsable)
      else (⟨true, oracle⟩, 1, oracle)
  | ProbeOp.asyncCheck, oracle => (st, 1, oracle)

/-- Run a sequence of probe calls; the pair of counters accumulates the
probes spawned through hasFfmpegSync and through ffmpegAvailable. -/
def probeRun (st : FfmpegCache) : List (ProbeOp × Bool) → FfmpegCache × ℕ × ℕ
  | [] => (st, 0, 0)
  | (op, o) :: rest =>
      let step := probeStep st op o
      let next := probeRun step.1 rest
      match op with
      | ProbeOp.syncCheck => (next.1, step.2.1 + next.2.1, next.2.2)
      | ProbeOp.asyncCheck => (next.1, next.2.1, step.2.1 + next.2.2)

/-- Counterexample to claim C7 as stated: two blocks processed through the
asynchronous path (ffmpegAvailable in telephonyAudio.js) spawn two
availability probes in one process, so the probe is not performed at most
once per process and is repeated for subsequent blocks. -/
theorem async_probe_repeated :
    (probeRun initFfmpegCache
        [(ProbeOp.asyncCheck, true), (ProbeOp.asyncCheck, true)]).2.2 = 2
    ∧ ¬ ((probeRun initFfmpegCache
        [(ProbeOp.asyncCheck, true), (ProbeOp.asyncCheck, true)]).2.1
      + (probeRun initFfmpegCache
        [(ProbeOp.asyncCheck, true), (ProbeOp.asyncCheck, true)]).2.2 ≤ 1) := by
  constructor <;> decide

theorem probeRun_checked_sync_zero : ∀ (calls : List (ProbeOp × Bool)) (st : FfmpegCache),
    st.ffmpegChecked = true →
      (probeRun st calls).2.1 = 0 ∧ (probeRun st calls).1 = st
  | [], _, _ => ⟨rfl, rfl⟩
  | (op, o) :: rest, st, h => by
      cases op with
      | syncCheck =>
          simp only [probeRun, probeStep, h, if_true]
          have ih := probeRun_checked_sync_zero rest st h
          exact ⟨by rw [ih.1], ih.2⟩
      | asyncCheck =>
          simp only [probeRun, probeStep]
          exact probeRun_checked_sync_zero rest st h

theorem probeRun_sync_once : ∀ (calls : List (ProbeOp × Bool)) (st : FfmpegCache),
    (probeRun st calls).2.1 ≤ 1
  | [], _ => Nat.zero_le 1
  | (op, o) :: rest, st => by
      cases op with
      | syncCheck =>
          by_cases h : st.ffmpegChecked = true
          · simp only [probeRun, probeStep, h, if_true]
            rw [(probeRun_checked_sync_zero rest st h).1]
            omega
          · simp only [probeRun, probeStep, Bool.not_eq_true] at h ⊢
            rw [h]
            simp only [Bool.false_eq_true, if_false]
            have hz := (probeRun_checked_sync_zero rest ⟨true, o⟩ rfl).1
            simp only [hz]
            omega
      | asyncCheck =>
          simp only [probeRun, probeStep]
          exact probeRun_sync_once rest st

/-- Claim C7, amended: the synchronous availability probe (hasFfmpegSync,
used by resamplePcm16Best) runs at most once per process - over any call
sequence the cache is written at most once and, once checked, every later
call returns the cached value, spawns nothing, and leaves the cache
unchanged. The asynchronous probe (ffmpegAvailable in telephonyAudio.js),
however, spawns on every call, one per processed block. -/
theorem sync_probe_cached (calls : List (ProbeOp × Bool)) (st : FfmpegCache)
    (h : st.ffmpegChecked = true) :
    (probeRun initFfmpegCache calls).2.1 ≤ 1
    ∧ (probeRun st calls).2.1 = 0
    ∧ (probeRun st calls).1 = st
    ∧ ∀ o, probeStep st ProbeOp.syncCheck o = (st, 0, st.ffmpegUsable) := by
  refine ⟨probeRun_sync_once calls initFfmpegCache,
    (probeRun_checked_sync_zero calls st h).1,
    (probeRun_checked_sync_zero calls st h).2, fun o => ?_⟩
  simp [probeStep, h]

/-- Witness for claim C7 at a concrete input: after the first synchronous
probe the cache is checked, and a later mixed call sequence spawns no
further synchronous probes and leaves the cache unchanged. -/
theorem sync_probe_cached_witness :
    (probeRun initFfmpegCache
        [(ProbeOp.syncCheck, true), (ProbeOp.asyncCheck, false)]).2.1 ≤ 1
    ∧ (probeRun (⟨true, true⟩ : FfmpegCache)
        [(ProbeOp.syncCheck, true), (ProbeOp.asyncCheck, false)]).2.1 = 0
    ∧ (probeRun (⟨true, true⟩ : FfmpegCache)
        [(ProbeOp.syncCheck, true), (ProbeOp.asyncCheck, false)]).1 = ⟨true, true⟩
    ∧ ∀ o, probeStep ⟨true, true⟩ ProbeOp.syncCheck o
        = (⟨true, true⟩, 0, (⟨true, true⟩ : FfmpegCache).ffmpegUsable) :=
  sync_probe_cached [(ProbeOp.syncCheck, true), (ProbeOp.asyncCheck, false)]
    ⟨true, true⟩ rfl

/-! ## Call setup and the missing-credential path (src/realtimeHandler.js) -/

/-- connectToOpenAI (lines 1005-1020): with no OPENAI_API_KEY it logs and
returns null without constructing a WebSocket; otherwise it constructs and
returns the engine socket. -/
def connectToOpenAI (hasApiKey : Bool) : Option Unit :=
  if hasApiKey then some () else none

/-- What the connection handler leaves behind after its setup phase. -/
structure BridgeWiring where
  engineSocketsOpened : ℕ
  twilioClosed : Bool
  audioHandlersWired : Bool
deriving DecidableEq

/-- The setup phase of the per-call connection handler (lines 526-537 and
onward): connectToOpenAI is invoked exactly once; on a null engine socket
the handler closes the Twilio socket and returns before the per-call state
and the message handlers (lines 873 and 969) are created, so no engine
socket was opened, no retry happens, and no handler forwarding audio is
registered; otherwise one engine socket is open and the handlers are
wired. -/
def connectionSetup (hasApiKey : Bool) : BridgeWiring :=
  match connectToOpenAI hasApiKey with
  | none => ⟨0, true, false⟩
  | some _ => ⟨1, false, true⟩

/-- Claim C9: a missing AI-engine credential at call setup is fatal: the
telephony leg is closed immediately, no engine socket is ever opened (and
none is attempted again), and no partially wired bridge is left behind -
no handler forwarding audio exists. With the credential present the bridge
is fully wired and the telephony leg stays open. -/
theorem missing_credential_fatal :
    connectToOpenAI false = none
    ∧ connectionSetup false
        = ⟨0, true, false⟩
    ∧ connectionSetup true
        = ⟨1, false, true⟩ := by
  constructor
  · rfl
  · constructor <;> rfl

end VoiceAi
